import Mathlib

/-!
# Verification of zipsplit

A shallow embedding of `zipsplit.go` and proofs about its splitting engine.
Go strings are modelled as `List Char` (the program only ever handles ASCII
names and suffixes, where bytes and runes coincide); Go `uint64` arithmetic
is modelled as `Nat` with explicit reduction modulo `2 ^ 64` at every
operation that can wrap.
-/

namespace Zipsplit

/-- `2 ^ 64`, the modulus of Go `uint64` arithmetic. -/
def U : Nat := 2 ^ 64

/-- Go `uint64` addition: wraps modulo `2 ^ 64`. -/
def uadd (a b : Nat) : Nat := (a + b) % U

/-- Go `uint64` subtraction `a - b` for a constant `b ≤ 2 ^ 64`:
wraps modulo `2 ^ 64`. -/
def usub (a b : Nat) : Nat := (a + (U - b)) % U

/-- The fields of `zip.FileHeader` that `zipsplit.go` reads: `Name`,
`Comment`, `Extra` and `CompressedSize64`. `Extra` is a byte slice, of
which only the length is ever used. -/
structure FileHeader where
  name : List Char
  comment : List Char
  extra : List Nat
  compressedSize64 : Nat
deriving DecidableEq, Repr

/-- A numeric formatting template, standing for strings such as
`out-%03d.zip`: a literal part, the zero-padded minimum width of the
numeric verb, and a trailing literal part.

Modelled from the spec: the expansion `fmt.Sprintf(template, n)` is Go
library code outside this repository; the spec describes the argument as
"a single-integer numeric formatting template", which this structure
renders as literal text around one zero-padded decimal verb. -/
structure Template where
  pre : List Char
  width : Nat
  suf : List Char
deriving DecidableEq, Repr

/-- The character of a single decimal digit. -/
def digitChar (d : Nat) : Char := Char.ofNat (48 + d)

/-- Fuelled loop producing the decimal digits of `n`, most significant
first. Mirrors how Go renders the `%d` verb for a nonnegative argument. -/
def toDecGo : Nat → Nat → List Char
  | 0, _ => []
  | fuel + 1, n =>
      if n < 10 then [digitChar n]
      else toDecGo fuel (n / 10) ++ [digitChar (n % 10)]

/-- The decimal digit string of `n`. -/
def toDec (n : Nat) : List Char := toDecGo (n + 1) n

/-- Zero-pad a digit string on the left to a minimum width, as the Go
verb `%0wd` does. -/
def padCore (w : Nat) (ds : List Char) : List Char :=
  List.replicate (w - ds.length) '0' ++ ds

/-- Modelled from the spec: `fmt.Sprintf(template, n)` for a
single-integer numeric formatting template — the literal text around the
verb with the zero-padded decimal rendering of `n` in between. -/
def sprintf (t : Template) (n : Nat) : List Char :=
  t.pre ++ padCore t.width (toDec n) ++ t.suf

/-- Whether `pat` occurs at the start of `s`. -/
def startsWith : List Char → List Char → Bool
  | [], _ => true
  | _ :: _, [] => false
  | p :: ps, c :: cs => p = c && startsWith ps cs

/-- Whether `pat` occurs anywhere inside `s`; models `strings.Contains`. -/
def containsSub (pat : List Char) : List Char → Bool
  | [] => pat.isEmpty
  | c :: cs => startsWith pat (c :: cs) || containsSub pat cs

/-- The validation performed by `numberedFileNamer`: expand the template
with `0` and with `1`; the template is invalid when the two expansions
coincide or the first contains the Go error marker. -/
def validTemplate (t : Template) : Bool :=
  let a := sprintf t 0
  let b := sprintf t 1
  !(a = b || containsSub ['%', '!'] a)

/-- The name produced by the `k`-th call (counting from `0`) of the
generator returned by `numberedFileNamer`: its counter starts at `1` and
increases by one on every call. -/
def nthName (t : Template) (k : Nat) : List Char := sprintf t (k + 1)

/-- The `Config` structure of `zipsplit.go`. -/
structure Config where
  sourceArchive : List Char
  nameTemplate : Template
  splitSize : Nat
deriving DecidableEq, Repr

/-- The `Bucket` structure of `zipsplit.go`. The `config` field of the Go
struct is never written or read and is omitted. -/
structure Bucket where
  filename : List Char
  size : Nat
  files : List FileHeader
deriving DecidableEq, Repr

/-- The `totalSize` computed inside `fit` for one entry before the
compressed payload is added: each Go addition is a `uint64` addition.
The name length is counted twice, once for the local header and once for
the central directory. -/
def overheadSize (e : FileHeader) : Nat :=
  uadd (uadd (uadd (uadd (uadd (uadd e.name.length 30) 16) 46)
    e.name.length) e.comment.length) e.extra.length

/-- The full per-entry `totalSize` of `fit`: overhead plus the compressed
payload, in `uint64` arithmetic. -/
def cost (e : FileHeader) : Nat := uadd (overheadSize e) e.compressedSize64

/-- The per-entry cost as the spec words it: plain (unbounded) sum of the
three fixed header constants, the name length twice, the comment length,
the extra-field length and the compressed payload. -/
def specCost (e : FileHeader) : Nat :=
  30 + 16 + 46 + 2 * e.name.length + e.comment.length +
    e.extra.length + e.compressedSize64

/-- The capacity test of `fit`, line 134 of `zipsplit.go`:
`bucket.size + totalSize <= config.splitSize - 22` in `uint64`
arithmetic. -/
def fits (cfg : Config) (b : Bucket) (e : FileHeader) : Bool :=
  uadd b.size (cost e) ≤ usub cfg.splitSize 22

/-- Place an entry into the first existing bucket that passes the
capacity test, returning `none` when no bucket accepts it. On success the
accepting bucket's tracked size grows by the full entry cost and the
entry is appended to its file list. -/
def placeFirst (cfg : Config) (e : FileHeader) : List Bucket → Option (List Bucket)
  | [] => none
  | b :: bs =>
      if fits cfg b e then
        some ({ b with size := uadd b.size (cost e), files := b.files ++ [e] } :: bs)
      else
        (placeFirst cfg e bs).map (b :: ·)

/-- The main loop of `fit`: for each entry in order, try the existing
buckets in creation order; when none accepts it, append a fresh bucket
named by the namer counter `n`, whose tracked size is initialized to the
entry's compressed size only (exactly as line 145 of `zipsplit.go` does).
Returns the buckets and the final counter. -/
def fitLoop (cfg : Config) : List FileHeader → List Bucket → Nat → List Bucket × Nat
  | [], buckets, n => (buckets, n)
  | e :: rest, buckets, n =>
      match placeFirst cfg e buckets with
      | some buckets2 => fitLoop cfg rest buckets2 n
      | none =>
          fitLoop cfg rest
            (buckets ++ [⟨sprintf cfg.nameTemplate n, e.compressedSize64, [e]⟩]) (n + 1)

/-- The `fit` function of `zipsplit.go`: construct the namer (whose
validation may fail) and run the packing loop with the counter starting
at `1`. -/
def fit (files : List FileHeader) (cfg : Config) : Except String (List Bucket) :=
  if validTemplate cfg.nameTemplate then
    Except.ok (fitLoop cfg files [] 1).1
  else
    Except.error "Invalid template."

/-- The concatenation of all bucket file lists, in bucket order. -/
def bucketsFiles (bs : List Bucket) : List FileHeader :=
  (bs.map Bucket.files).flatten

/-- The predicted size of a bucket as the spec defines it: the sum of the
full costs of its entries. -/
def predictedSize (b : Bucket) : Nat := (b.files.map specCost).sum

/-- The outcome of the guard at line 247 of `zipsplit.go`. When the entry
list is empty the condition `len(files) < 1` holds and the guard body
runs, but the `Printf` arguments evaluate `files[0].Name` on the empty
slice, which is an index-out-of-range runtime panic. The human-readable
size in the message is display-only (it goes through `float64`
formatting) and is not modelled; the message is represented by the name
of the offending entry. -/
inductive GuardResult where
  | proceed
  | exitWithMessage (offender : List Char)
  | panicOutOfRange
deriving DecidableEq, Repr

/-- The pre-packing guard of `main`:
`if len(files) < 1 || files[0].CompressedSize64 > config.splitSize`.
The `||` short-circuits, but the branch body unconditionally reads
`files[0].Name`, so the empty list panics. -/
def checkFit (files : List FileHeader) (cfg : Config) : GuardResult :=
  match files with
  | [] => GuardResult.panicOutOfRange
  | f :: _ =>
      if f.compressedSize64 > cfg.splitSize then
        GuardResult.exitWithMessage f.name
      else
        GuardResult.proceed

/-- The outcome of `main` from after the descending sort up to and
including packing (bucket materialization is modelled separately by
`makeZip`). -/
inductive RunResult where
  | packed (buckets : List Bucket)
  | exited (offender : List Char)
  | panicked
  | failed (msg : String)
deriving DecidableEq, Repr

/-- The pipeline of `main` after sorting: run the guard; on `proceed`
call `fit`. `fit` is not called, and no output file is created, unless
the guard proceeds. -/
def runPack (files : List FileHeader) (cfg : Config) : RunResult :=
  match checkFit files cfg with
  | GuardResult.panicOutOfRange => RunResult.panicked
  | GuardResult.exitWithMessage m => RunResult.exited m
  | GuardResult.proceed =>
      match fit files cfg with
      | Except.ok bs => RunResult.packed bs
      | Except.error e => RunResult.failed e

/-- The outcomes of the input/output operations performed by `makeZip`:
whether opening the source archive fails, whether creating the output
file fails, and for each source entry name whether copying that entry
fails. -/
structure IOEnv where
  sourceOpenFails : Bool
  createFails : Bool
  copyFailsOn : List Char → Bool

/-- The copy loop of `makeZip`: for each bucket file, scan the source
entries in order and copy the first one with the same name, stopping the
scan there (the `break`). A copy failure aborts with an error. A bucket
file matching no source entry is passed over and the loop continues. -/
def copyAll (env : IOEnv) (source : List FileHeader) : List FileHeader → Except String Unit
  | [] => Except.ok ()
  | bf :: rest =>
      match source.find? (fun sf => sf.name == bf.name) with
      | some sf =>
          if env.copyFailsOn sf.name then Except.error "copy failed"
          else copyAll env source rest
      | none => copyAll env source rest

/-- `Bucket.makeZip` of `zipsplit.go`: open the source archive, create
the output file, then run the copy loop. -/
def makeZip (env : IOEnv) (source : List FileHeader) (bucket : Bucket) : Except String Unit :=
  if env.sourceOpenFails then Except.error "open failed"
  else if env.createFails then Except.error "create failed"
  else copyAll env source bucket.files

/-- Read a decimal digit string back into a number. -/
def fromDec (ds : List Char) : Nat :=
  ds.foldl (fun a c => a * 10 + (c.toNat - 48)) 0

/-- Go `strconv.ParseUint(s, 10, 64)`: fails on the empty string, on any
non-digit character and on overflow past `2 ^ 64 - 1`. -/
def parseUint (ds : List Char) : Option Nat :=
  if ds.isEmpty then none
  else if ds.all Char.isDigit then
    let v := fromDec ds
    if v < U then some v else none
  else none

/-- ASCII whitespace, as `strings.TrimSpace` strips at either end (the
model covers ASCII input). -/
def isSpaceChar (c : Char) : Bool :=
  c = ' ' || c = '\t' || c = '\n' || c = '\x0b' || c = '\x0c' || c = '\r'

/-- `strings.TrimSpace` on the character-list model. -/
def trimSpace (s : List Char) : List Char :=
  ((s.dropWhile isSpaceChar).reverse.dropWhile isSpaceChar).reverse

/-- `strings.ToLower` on the character-list model (ASCII). -/
def toLowerL (s : List Char) : List Char := s.map Char.toLower

/-- The `sizeTable` of `zipsplit.go`: a map whose lookup yields the Go
zero value `0` for any key not present. The constants are
`1 << (iota * 10)`: bytes, kibi, mebi, gibi, tebi and `1 << 50`. -/
def sizeFactor (suffix : List Char) : Nat :=
  if suffix = [] then 1
  else if suffix = ['b'] then 1
  else if suffix = ['k'] then 1024
  else if suffix = ['k', 'b'] then 1024
  else if suffix = ['m'] then 1024 ^ 2
  else if suffix = ['m', 'b'] then 1024 ^ 2
  else if suffix = ['g'] then 1024 ^ 3
  else if suffix = ['g', 'b'] then 1024 ^ 3
  else if suffix = ['t'] then 1024 ^ 4
  else if suffix = ['t', 'b'] then 1024 ^ 4
  else if suffix = ['e'] then 1024 ^ 5
  else if suffix = ['e', 'b'] then 1024 ^ 5
  else 0

/-- `humanToNumber` of `zipsplit.go`: split off the longest leading run
of decimal digits, parse it with `ParseUint` (any parse error yields
`0`), look the trimmed, lowercased remainder up in the size table and
multiply in `uint64` arithmetic. On ASCII input the byte index
`splitPoint` and the rune count coincide, so the split is the
`takeWhile` / `dropWhile` pair. -/
def humanToNumber (s : List Char) : Nat :=
  let numberString := s.takeWhile Char.isDigit
  match parseUint numberString with
  | none => 0
  | some number =>
      (number * sizeFactor (toLowerL (trimSpace (s.dropWhile Char.isDigit)))) % U

/-! ## Concrete inputs used by the theorems below -/

/-- The default output template `out-%03d.zip`. -/
def tOut : Template := ⟨"out-".data, 3, ".zip".data⟩

/-- An entry with a ten-character name and a 50-byte compressed payload. -/
def e1 : FileHeader := ⟨"aaaaaaaaaa".data, [], [], 50⟩

/-- An entry with a ten-character name and a 90-byte compressed payload. -/
def e2 : FileHeader := ⟨"aaaaaaaaaa".data, [], [], 90⟩

/-- An entry whose compressed payload is 1000 bytes. -/
def eBig1000 : FileHeader := ⟨"big".data, [], [], 1000⟩

/-- A configuration with a 100-byte split size. -/
def cfg1 : Config := ⟨[], tOut, 100⟩

/-- A configuration whose split size is `0`, below the 22-byte
end-of-archive overhead. -/
def cfg0 : Config := ⟨[], tOut, 0⟩

/-- The single bucket `fit` produces for `[e1]` under `cfg1`. -/
def bkt1 : Bucket := ⟨sprintf tOut 1, 50, [e1]⟩

/-- The single bucket `fit` produces for `[e2]` under `cfg1`. -/
def bkt2 : Bucket := ⟨sprintf tOut 1, 90, [e2]⟩

/-- A bucket whose tracked size is the largest `uint64` value. -/
def bBig : Bucket := ⟨[], U - 1, []⟩

/-- An entry whose cost is the largest `uint64` value. -/
def eBig : FileHeader := ⟨[], [], [], U - 93⟩

/-- A bucket with tracked size 100 and no recorded files. -/
def bSmall : Bucket := ⟨[], 100, []⟩

/-! ## C3: the per-entry cost formula -/

/-- C3: the per-entry cost used by the capacity test of the packer equals
the fixed constants 30, 16 and 46 plus twice the name length plus the
comment length plus the extra-field length plus the compressed payload —
reduced modulo `2 ^ 64` as every Go `uint64` computation is, and exactly
equal to the plain sum whenever that sum fits in a `uint64`. -/
theorem cost_is_specCost :
    (∀ e : FileHeader, cost e = specCost e % U) ∧
    (∀ e : FileHeader, specCost e < U → cost e = specCost e) := by
  have key : ∀ e : FileHeader, cost e = specCost e % U := by
    intro e
    simp only [cost, overheadSize, uadd, specCost, Nat.mod_add_mod]
    congr 1
    ring
  exact ⟨key, fun e h => by rw [key e, Nat.mod_eq_of_lt h]⟩

/-- Witness for C3 at a concrete entry with a one-character name and a
100-byte payload. -/
theorem cost_is_specCost_witness :
    cost ⟨['a'], [], [], 100⟩ = specCost ⟨['a'], [], [], 100⟩ :=
  cost_is_specCost.2 ⟨['a'], [], [], 100⟩ (by decide)

/-! ## C7: the empty-archive guard -/

/-- C7 (refuted by the code): on an archive with zero entries the guard
condition `len(files) < 1` holds, but the message arguments evaluate
`files[0].Name` on the empty slice, an index-out-of-range access — the
run dies in a panic rather than reporting the condition. -/
theorem emptyArchive_out_of_range (cfg : Config) :
    checkFit [] cfg = GuardResult.panicOutOfRange := rfl

/-! ## C1: the bound invariant -/

/-- C1 (refuted by the code): with a 100-byte split size, a single entry
of compressed size 50 with a ten-character name passes the guard in
`main`, and `fit` places it into a fresh bucket whose total predicted
size is 162 bytes — exceeding the 78-byte bound
(`splitSize` minus the 22-byte end-of-archive overhead). The new-bucket
branch of `fit` neither checks the bound nor charges the header
overhead of the first entry. -/
theorem bound_invariant_violated :
    checkFit [e1] cfg1 = GuardResult.proceed ∧
    runPack [e1] cfg1 = RunResult.packed [bkt1] ∧
    predictedSize bkt1 = 162 ∧
    usub cfg1.splitSize 22 = 78 ∧
    usub cfg1.splitSize 22 < predictedSize bkt1 := by decide

/-! ## C2: rejection of unfittable entries -/

/-- C2 counterexample: an entry with a ten-character name and a 90-byte
compressed payload costs 202 bytes, more than the whole 100-byte split
size and far more than the 78-byte empty-bucket capacity, yet
`runPack` does not reject the operation: the guard compares only the raw
compressed size, `fit` runs and a bucket (hence an output file) is
produced. -/
theorem unfittable_entry_not_rejected :
    usub cfg1.splitSize 22 < specCost e2 ∧
    cfg1.splitSize < specCost e2 ∧
    runPack [e2] cfg1 = RunResult.packed [bkt2] := by decide

/-- C2 amended: before packing begins the whole operation is rejected
(with fit never called) exactly when the first — largest — entry has raw
compressed size exceeding `splitSize`; the cost overhead is not
consulted. In particular a 100-byte bound with a single entry of
compressed size 1000 bytes is rejected before any file is created. -/
theorem reject_checks_compressed_size :
    (∀ (cfg : Config) (f : FileHeader) (rest : List FileHeader),
        f.compressedSize64 > cfg.splitSize →
        runPack (f :: rest) cfg = RunResult.exited f.name) ∧
    runPack [eBig1000] cfg1 = RunResult.exited eBig1000.name := by
  constructor
  · intro cfg f rest h
    simp [runPack, checkFit, h]
  · decide

/-- Witness for C2 amended at the 100-byte bound with a 1000-byte
entry. -/
theorem reject_checks_compressed_size_witness :
    runPack [eBig1000] cfg1 = RunResult.exited eBig1000.name :=
  reject_checks_compressed_size.1 cfg1 eBig1000 [] (by decide)

/-! ## C10: wrapping of the capacity bound below 22 -/

/-- C10 counterexample: with a split size of `0` the wrapped capacity is
`2 ^ 64 - 22`, yet an entry is not accepted when the wrapped sum of the
bucket tracked size and the entry cost lands above it — so the capacity
test does not accept entries of every size. -/
theorem small_bound_rejects_huge_entry :
    cfg0.splitSize < 22 ∧ fits cfg0 bBig eBig = false := by decide

/-- C10 amended: for every configuration with `splitSize < 22` the
capacity bound `splitSize - 22` wraps modulo `2 ^ 64` to
`splitSize + 2 ^ 64 - 22`, at least `2 ^ 64 - 22`, and the capacity test
accepts into an existing bucket every entry for which the bucket tracked
size plus the entry cost stays below that wrapped value — every entry
except those within `22 - splitSize` bytes of the `uint64` wrap — rather
than treating the bound as too small. -/
theorem small_bound_wraps :
    ∀ cfg : Config, cfg.splitSize < 22 →
      usub cfg.splitSize 22 = cfg.splitSize + (U - 22) ∧
      U - 22 ≤ usub cfg.splitSize 22 ∧
      ∀ (b : Bucket) (e : FileHeader),
        b.size + cost e ≤ cfg.splitSize + (U - 22) → fits cfg b e = true := by
  intro cfg h
  have hU : 22 ≤ U := by norm_num [U]
  have hlt : cfg.splitSize + (U - 22) < U := by omega
  have h1 : usub cfg.splitSize 22 = cfg.splitSize + (U - 22) := by
    unfold usub
    exact Nat.mod_eq_of_lt hlt
  refine ⟨h1, by omega, ?_⟩
  intro b e hle
  have h2 : uadd b.size (cost e) ≤ b.size + cost e := Nat.mod_le _ _
  simp only [fits, h1, decide_eq_true_eq]
  exact le_trans h2 hle

/-- Witness for C10 amended: under the zero split size, a bucket of
tracked size 100 accepts the 162-byte-cost entry `e1`. -/
theorem small_bound_wraps_witness :
    fits cfg0 bSmall e1 = true :=
  (small_bound_wraps cfg0 (by decide)).2.2 bSmall e1 (by decide)

/-! ## C5: failures during bucket materialization -/

/-- An entry named `a`. -/
def entA : FileHeader := ⟨['a'], [], [], 5⟩

/-- An entry named `b`. -/
def entB : FileHeader := ⟨['b'], [], [], 10⟩

/-- A source archive listing containing only the entry named `b`. -/
def srcB : List FileHeader := [entB]

/-- A bucket holding only the entry named `a`. -/
def bktA : Bucket := ⟨['o'], 0, [entA]⟩

/-- A bucket holding only the entry named `b`. -/
def bktB : Bucket := ⟨['o'], 0, [entB]⟩

/-- An environment in which every input/output operation succeeds. -/
def envOK : IOEnv := ⟨false, false, fun _ => false⟩

/-- An environment in which opening the source archive fails. -/
def envOpen : IOEnv := ⟨true, false, fun _ => false⟩

/-- An environment in which creating the output file fails. -/
def envCreate : IOEnv := ⟨false, true, fun _ => false⟩

/-- An environment in which copying the entry named `b` fails. -/
def envCopyB : IOEnv := ⟨false, false, fun n => n == ['b']⟩

/-- Helper for C5: when no located entry fails to copy, the copy loop
succeeds — bucket files matching no source entry are passed over. -/
theorem copyAll_ok (env : IOEnv) (source : List FileHeader) :
    ∀ fs : List FileHeader,
      (∀ bf ∈ fs, ∀ sf, source.find? (fun s => s.name == bf.name) = some sf →
          env.copyFailsOn sf.name = false) →
      copyAll env source fs = Except.ok () := by
  intro fs
  induction fs with
  | nil => intro _; rfl
  | cons bf rest ih =>
    intro h
    simp only [copyAll]
    cases hf : source.find? (fun s => s.name == bf.name) with
    | none => exact ih fun x hx sf hsf => h x (List.mem_cons_of_mem _ hx) sf hsf
    | some sf =>
      have hc := h bf (List.mem_cons_self _ _) sf hf
      simp only [hc, Bool.false_eq_true, if_false]
      exact ih fun x hx sf2 hsf => h x (List.mem_cons_of_mem _ hx) sf2 hsf

/-- C5 counterexample: with all input/output succeeding, a bucket whose
entry named `a` matches no entry of the source archive makes `makeZip`
return success — the missing entry is silently skipped, not an error. -/
theorem missing_entry_silently_skipped :
    srcB.find? (fun sf => sf.name == entA.name) = none ∧
    makeZip envOK srcB bktA = Except.ok () :=
  ⟨by decide, rfl⟩

/-- C5 amended: `makeZip` returns an error and aborts the bucket when
the source archive cannot be opened, when the output file cannot be
created, or when copying a located entry fails; but a bucket entry whose
name matches no source entry is silently skipped rather than reported —
absent input/output failures on located entries, `makeZip` succeeds
regardless of missing names. -/
theorem makeZip_failure_policy :
    (∀ (env : IOEnv) (src : List FileHeader) (b : Bucket),
        env.sourceOpenFails = true →
        makeZip env src b = Except.error "open failed") ∧
    (∀ (env : IOEnv) (src : List FileHeader) (b : Bucket),
        env.sourceOpenFails = false → env.createFails = true →
        makeZip env src b = Except.error "create failed") ∧
    (∀ (env : IOEnv) (src : List FileHeader) (fn : List Char) (sz : Nat)
        (bf : FileHeader) (rest : List FileHeader) (sf : FileHeader),
        env.sourceOpenFails = false → env.createFails = false →
        src.find? (fun s => s.name == bf.name) = some sf →
        env.copyFailsOn sf.name = true →
        makeZip env src ⟨fn, sz, bf :: rest⟩ = Except.error "copy failed") ∧
    (∀ (env : IOEnv) (src : List FileHeader) (b : Bucket),
        env.sourceOpenFails = false → env.createFails = false →
        (∀ bf ∈ b.files, ∀ sf, src.find? (fun s => s.name == bf.name) = some sf →
            env.copyFailsOn sf.name = false) →
        makeZip env src b = Except.ok ()) := by
  refine ⟨?_, ?_, ?_, ?_⟩
  · intro env src b h
    simp [makeZip, h]
  · intro env src b h1 h2
    simp [makeZip, h1, h2]
  · intro env src fn sz bf rest sf h1 h2 hf hc
    simp [makeZip, h1, h2, copyAll, hf, hc]
  · intro env src b h1 h2 h3
    simp only [makeZip, h1, h2, Bool.false_eq_true, if_false]
    exact copyAll_ok env src b.files h3

/-- Witness for C5 amended: each failure path at a concrete environment,
and success with a located entry. -/
theorem makeZip_failure_policy_witness :
    makeZip envOpen srcB bktA = Except.error "open failed" ∧
    makeZip envCreate srcB bktA = Except.error "create failed" ∧
    makeZip envCopyB srcB bktB = Except.error "copy failed" ∧
    makeZip envOK srcB bktB = Except.ok () :=
  ⟨makeZip_failure_policy.1 envOpen srcB bktA rfl,
   makeZip_failure_policy.2.1 envCreate srcB bktA rfl rfl,
   makeZip_failure_policy.2.2.1 envCopyB srcB ['o'] 0 entB [] entB rfl rfl
     (by decide) (by decide),
   makeZip_failure_policy.2.2.2 envOK srcB bktB rfl rfl
     (fun bf _ sf _ => rfl)⟩

/-! ## C8: size-string parsing -/

/-- C8: `humanToNumber` multiplies the leading decimal digit string by
the factor of its case-insensitive suffix. Any suffix outside the size
table has factor `0` and the result is `0`; the listed suffixes map to
the powers of 1024 of the size table, `\"10Mb\"` parses to
`10 * 1024 ^ 2`, and `\"0\"` and `\"\"` both parse to `0`. -/
theorem humanToNumber_spec :
    (∀ s : List Char,
        sizeFactor (toLowerL (trimSpace (s.dropWhile Char.isDigit))) = 0 →
        humanToNumber s = 0) ∧
    humanToNumber "10Mb".data = 10 * 1024 ^ 2 ∧
    humanToNumber "10MB".data = 10 * 1024 ^ 2 ∧
    humanToNumber "10mb".data = 10 * 1024 ^ 2 ∧
    humanToNumber "0".data = 0 ∧
    humanToNumber "".data = 0 ∧
    humanToNumber "7".data = 7 ∧
    humanToNumber "7b".data = 7 ∧
    humanToNumber "3k".data = 3 * 1024 ∧
    humanToNumber "3KB".data = 3 * 1024 ∧
    humanToNumber "5g".data = 5 * 1024 ^ 3 ∧
    humanToNumber "5Gb".data = 5 * 1024 ^ 3 ∧
    humanToNumber "2t".data = 2 * 1024 ^ 4 ∧
    humanToNumber "2tb".data = 2 * 1024 ^ 4 ∧
    humanToNumber "4e".data = 4 * 1024 ^ 5 ∧
    humanToNumber "4Eb".data = 4 * 1024 ^ 5 ∧
    humanToNumber "5x".data = 0 := by
  refine ⟨?_, by decide⟩
  intro s h
  unfold humanToNumber
  cases hp : parseUint (s.takeWhile Char.isDigit) with
  | none => simp [hp]
  | some n => simp [hp, h]

/-- Witness for C8 at a concrete string with an unrecognized suffix. -/
theorem humanToNumber_spec_witness :
    humanToNumber "9zz".data = 0 :=
  humanToNumber_spec.1 "9zz".data (by decide)

/-! ## C4: the buckets partition the input -/

/-- `bucketsFiles` distributes over cons. -/
theorem bucketsFiles_cons (b : Bucket) (bs : List Bucket) :
    bucketsFiles (b :: bs) = b.files ++ bucketsFiles bs := rfl

/-- `bucketsFiles` over appending one bucket at the end. -/
theorem bucketsFiles_append (bs : List Bucket) (b : Bucket) :
    bucketsFiles (bs ++ [b]) = bucketsFiles bs ++ b.files := by
  simp [bucketsFiles]

/-- Placing one entry into the first fitting bucket adds exactly that
entry to the multiset of bucketed files. -/
theorem placeFirst_perm (cfg : Config) (e : FileHeader) :
    ∀ (bs bs2 : List Bucket), placeFirst cfg e bs = some bs2 →
      (bucketsFiles bs2).Perm (e :: bucketsFiles bs) := by
  intro bs
  induction bs with
  | nil => intro bs2 h; simp [placeFirst] at h
  | cons b rest ih =>
    intro bs2 h
    simp only [placeFirst] at h
    split at h
    · cases h
      simp only [bucketsFiles_cons]
      rw [List.append_assoc]
      exact List.perm_middle
    · cases ho : placeFirst cfg e rest with
      | none => rw [ho] at h; simp at h
      | some bs0 =>
        rw [ho] at h
        simp only [Option.map_some'] at h
        cases h
        simp only [bucketsFiles_cons]
        exact ((ih bs0 ho).append_left b.files).trans List.perm_middle

/-- The packing loop preserves, as a multiset, the bucketed files plus
the remaining input. -/
theorem fitLoop_perm (cfg : Config) :
    ∀ (files : List FileHeader) (bs : List Bucket) (n : Nat),
      (bucketsFiles (fitLoop cfg files bs n).1).Perm (bucketsFiles bs ++ files) := by
  intro files
  induction files with
  | nil => intro bs n; simp [fitLoop]
  | cons e rest ih =>
    intro bs n
    cases ho : placeFirst cfg e bs with
    | some bs2 =>
      simp only [fitLoop, ho]
      have h1 := ih bs2 n
      have h2 := placeFirst_perm cfg e bs bs2 ho
      exact h1.trans ((h2.append_right rest).trans List.perm_middle.symm)
    | none =>
      simp only [fitLoop, ho]
      have h1 := ih (bs ++ [⟨sprintf cfg.nameTemplate n, e.compressedSize64, [e]⟩]) (n + 1)
      rw [bucketsFiles_append] at h1
      simpa [List.append_assoc] using h1

/-- C4: for every entry list and configuration accepted by the packer,
the buckets returned by `fit` partition the input exactly — the multiset
union of the bucket file lists is a permutation of the input list, so no
entry is duplicated or omitted. -/
theorem fit_partitions (files : List FileHeader) (cfg : Config) (bs : List Bucket)
    (h : fit files cfg = Except.ok bs) :
    (bucketsFiles bs).Perm files := by
  unfold fit at h
  split at h
  · cases h
    simpa [bucketsFiles] using fitLoop_perm cfg files [] 1
  · cases h

/-- Witness for C4: `fit` on the singleton list `[e1]` under `cfg1`
returns the single bucket `bkt1`, whose files are a permutation of the
input. -/
theorem fit_partitions_witness :
    (bucketsFiles [bkt1]).Perm [e1] :=
  fit_partitions [e1] cfg1 [bkt1] (by rfl)

/-! ## C9: distinctness of generated names -/

/-- The decimal digit characters read back to their values. -/
theorem digitChar_toNat {d : Nat} (h : d < 10) : (digitChar d).toNat = 48 + d := by
  interval_cases d <;> rfl

/-- Reading the fuelled digit loop back: the digits of `n` appended to an
accumulator scale it by the emitted length and add `n`. -/
theorem fromDec_toDecGo :
    ∀ (fuel n acc : Nat), n < fuel →
      List.foldl (fun a c => a * 10 + (c.toNat - 48)) acc (toDecGo fuel n) =
        acc * 10 ^ (toDecGo fuel n).length + n := by
  intro fuel
  induction fuel with
  | zero => intro n acc h; omega
  | succ fuel ih =>
    intro n acc h
    by_cases h10 : n < 10
    · simp only [toDecGo, if_pos h10, List.foldl_cons, List.foldl_nil,
        List.length_singleton, pow_one]
      rw [digitChar_toNat h10]
      omega
    · simp only [toDecGo, if_neg h10, List.foldl_append, List.length_append,
        List.length_singleton, List.foldl_cons, List.foldl_nil]
      have hdiv : n / 10 < fuel := by
        have h1 : 0 < n := by omega
        have h2 : n / 10 < n := Nat.div_lt_self h1 (by omega)
        omega
      rw [ih (n / 10) acc hdiv]
      rw [digitChar_toNat (Nat.mod_lt n (by omega))]
      rw [pow_succ, ← mul_assoc]
      generalize acc * 10 ^ (toDecGo fuel (n / 10)).length = Q
      omega

/-- Reading the decimal rendering of `n` back yields `n`. -/
theorem fromDec_toDec (n : Nat) : fromDec (toDec n) = n := by
  have h := fromDec_toDecGo (n + 1) n 0 (by omega)
  simpa [fromDec, toDec] using h

/-- Leading zero padding does not change the value read back. -/
theorem fromDec_pad (k : Nat) (ds : List Char) :
    fromDec (List.replicate k '0' ++ ds) = fromDec ds := by
  induction k with
  | zero => rfl
  | succ k ih =>
    show fromDec ('0' :: (List.replicate k '0' ++ ds)) = fromDec ds
    simpa [fromDec] using ih

/-- The zero-padded decimal core reads back to its value. -/
theorem fromDec_padCore (w n : Nat) : fromDec (padCore w (toDec n)) = n := by
  unfold padCore
  rw [fromDec_pad]
  exact fromDec_toDec n

/-- The numeric-template expansion is injective in its argument. -/
theorem sprintf_inj (t : Template) (m n : Nat) (h : sprintf t m = sprintf t n) :
    m = n := by
  unfold sprintf at h
  rw [List.append_assoc, List.append_assoc] at h
  have h1 : padCore t.width (toDec m) ++ t.suf = padCore t.width (toDec n) ++ t.suf :=
    List.append_cancel_left h
  have h2 : padCore t.width (toDec m) = padCore t.width (toDec n) :=
    List.append_cancel_right h1
  have h3 := congrArg fromDec h2
  rwa [fromDec_padCore, fromDec_padCore] at h3

/-- C9: for every template accepted by the namer validation, the names
produced by successive calls of the generator are pairwise distinct —
for any two distinct call indices, in particular the first 10000, and
unboundedly. -/
theorem nthName_distinct (t : Template) (_hv : validTemplate t = true)
    (i j : Nat) (hij : i ≠ j) : nthName t i ≠ nthName t j := by
  intro hEq
  have h := sprintf_inj t (i + 1) (j + 1) hEq
  omega

/-- Witness for C9 at the default template `out-%03d.zip` and the first
two calls. -/
theorem nthName_distinct_witness :
    validTemplate tOut = true ∧ nthName tOut 0 ≠ nthName tOut 1 :=
  ⟨by decide, nthName_distinct tOut (by decide) 0 1 (by decide)⟩

end Zipsplit
